import Mathlib

set_option linter.unusedVariables false

/-!
Shallow embedding of the coredns-nftables plugin core (dispatcher, connection
pool, recency cache, metadata cache), translated from `nftables.go` and the
cache source file, together with theorems settling the specification claims.

Conventions of the embedding:
* Go `time.Time` / `time.Duration` become `Int` instants / durations; `time.Since x`
  at instant `now` is `now - x`.
* The hashicorp LRU cache becomes an association list ordered from
  least-recently-used (front) to most-recently-used (back), plus a capacity.
  `Get` moves the hit entry to the back; `Add` appends at the back and evicts
  the front when the capacity is exceeded; `GetOldest` peeks the front;
  `RemoveOldest` drops the front.  Go mutates the cached `*NftableIPCache`
  in place after a `Get`; the embedding models that as move-to-back with the
  updated value.
* `lru.New(n)` fails (returning a nil cache, with the error discarded) when
  `n ≤ 0`; the embedding keeps `recentlyIPCache : Option LruCache` and builds
  `none` when the configured capacity is `0`.
* External effects (netlink connection ids, listing/creating tables, applier
  invocations, writing the client response) are modelled by explicit oracle
  arguments and by event traces returned alongside the new state.
-/

namespace CorednsNftables

/-- DNS record kinds distinguished by the plugin: `dns.TypeA`, `dns.TypeAAAA`,
and everything else (the `default` branch of the type switches). -/
inductive RrType
  | A
  | AAAA
  | Other
deriving DecidableEq, Repr

/-- A DNS answer record as the plugin consumes it: its kind, the rendered
address string (`answer.(*dns.A).A.String()` resp. `AAAA.String()`; meaningless
for `Other`), and the owner name from the header. -/
structure DnsRR where
  rrtype : RrType
  ip : String
  name : String
deriving DecidableEq, Repr

/-- The `nftables.TableFamily` constants used by the code. -/
inductive TableFamily
  | Unspecified
  | INet
  | IPv4
  | IPv6
  | ARP
  | Netdev
  | Bridge
deriving DecidableEq, Repr

/-- Function `GetFamilyName` from the cache source: the printable name of a family. -/
def GetFamilyName : TableFamily → String
  | .Unspecified => "unspecified"
  | .INet => "inet"
  | .IPv4 => "ipv4"
  | .IPv6 => "ipv6"
  | .ARP => "arp"
  | .Netdev => "netdev"
  | .Bridge => "bridge"

/-- Structure `NftableIPCache`: one recency-cache entry (expiry instant and attempt
counter). -/
structure NftableIPCache where
  ExpireTime : Int
  ApplyCount : Int
deriving DecidableEq, Repr

/-- The hashicorp LRU cache holding recency entries, as an assoc list ordered
least-recently-used first, with its capacity. -/
structure LruCache where
  entries : List (String × NftableIPCache)
  capacity : Nat
deriving DecidableEq, Repr

/-- Value lookup in the LRU cache (the value `Get` would return, without the
recency side effect). -/
def lruPeek (c : LruCache) (k : String) : Option NftableIPCache :=
  (c.entries.find? (fun p => p.1 == k)).map Prod.snd

/-- The recency side effect of a hit `Get`, and of the in-place mutation Go
performs right after: the entry for `k` moves to the most-recently-used end,
carrying value `v`. -/
def lruMoveToBack (c : LruCache) (k : String) (v : NftableIPCache) : LruCache :=
  { c with entries := c.entries.filter (fun q => q.1 != k) ++ [(k, v)] }

/-- Operation `Add` of the hashicorp LRU: insert at the most-recently-used end, then
evict the least-recently-used entry if the capacity is exceeded. -/
def lruAdd (c : LruCache) (k : String) (v : NftableIPCache) : LruCache :=
  let es := c.entries.filter (fun q => q.1 != k) ++ [(k, v)]
  { c with entries := if c.capacity < es.length then es.tail else es }

/-- The eviction loop of `NftablesCache.gc`: repeatedly peek the
least-recently-used entry and drop it while its `ExpireTime` is not after
`now`; stop at the first entry with `ExpireTime` after `now`. -/
def gcEntries (now : Int) : List (String × NftableIPCache) → List (String × NftableIPCache)
  | [] => []
  | (k, v) :: rest => if now < v.ExpireTime then (k, v) :: rest else gcEntries now rest

/-- The per-family metadata entry `NftableCache` (a cached remote table
handle).  `AddTable` of the external engine returns its argument, so a handle
is determined by the family and the table name. -/
structure NftableCache where
  table_family : TableFamily
  table_name : String
deriving DecidableEq, Repr

/-- The metadata cache `tables`: family → (table name → handle), as nested
assoc lists. -/
abbrev TablesMap := List (TableFamily × List (String × NftableCache))

/-- Structure `NftablesCache`: one pooled connection bundling the metadata cache, the
recency cache, its creation instant, the external connection identity
(standing in for the `*nftables.Conn` pointer), and the connection-error
flag. -/
structure NftablesCache where
  tables : TablesMap
  recentlyIPCache : Option LruCache
  CreateTimepoint : Int
  connId : Nat
  HasNftableConnectionError : Bool
deriving DecidableEq

/-- Value lookup for an address in a connection's recency cache. -/
def recLookup (cache : NftablesCache) (ip : String) : Option NftableIPCache :=
  cache.recentlyIPCache.bind (fun lru => lruPeek lru ip)

/-- Method `LruIgnoreIp`: decide whether the answer's address is ignored, returning
the decision together with the connection state after the `Get` recency side
effect. -/
def LruIgnoreIp (maxRetry : Int) (cache : NftablesCache) (answer : DnsRR) :
    Bool × NftablesCache :=
  match cache.recentlyIPCache with
  | none => (false, cache)
  | some lru =>
    match answer.rrtype with
    | .Other => (false, cache)
    | _ =>
      if answer.ip.length = 0 then (false, cache)
      else
        match lruPeek lru answer.ip with
        | some v =>
            (decide (maxRetry ≤ v.ApplyCount),
             { cache with recentlyIPCache := some (lruMoveToBack lru answer.ip v) })
        | none => (false, cache)

/-- Method `LruUpdateIp`: record one completed dispatch pass for the answer's
address.  An existing entry has its `ApplyCount` incremented by 1 (the
`rulesCounter` argument is only logged); an absent address gets a fresh entry
with `ExpireTime = now + setLruTimeout` and `ApplyCount = 1`. -/
def LruUpdateIp (now setLruTimeout : Int) (cache : NftablesCache) (answer : DnsRR)
    (rulesCounter : Int) : NftablesCache :=
  match cache.recentlyIPCache with
  | none => cache
  | some lru =>
    match answer.rrtype with
    | .Other => cache
    | _ =>
      if answer.ip.length = 0 then cache
      else
        match lruPeek lru answer.ip with
        | some v =>
            { cache with recentlyIPCache := some (lruMoveToBack lru answer.ip
                  { v with ApplyCount := v.ApplyCount + 1 }) }
        | none =>
            { cache with recentlyIPCache := some (lruAdd lru answer.ip
                  { ExpireTime := now + setLruTimeout, ApplyCount := 1 }) }

/-- Method `gc`: run the expiry eviction loop on the connection's recency cache. -/
def gc (now : Int) (cache : NftablesCache) : NftablesCache :=
  match cache.recentlyIPCache with
  | none => cache
  | some lru =>
      { cache with recentlyIPCache := some { lru with entries := gcEntries now lru.entries } }

/-! ## Connection pool -/

/-- The pop loop at the head of `NewCache`: under the pool mutex, repeatedly
remove the front of `cacheList`; an entry older than `cacheExpiredDuration`
is discarded (`go cacheHead.destroy()`), the first entry within the TTL is
garbage-collected and returned together with the remaining queue. -/
def newCacheLoop (now ttl : Int) :
    List NftablesCache → List NftablesCache × Option NftablesCache
  | [] => ([], none)
  | c :: rest =>
    if ttl < now - c.CreateTimepoint then newCacheLoop now ttl rest
    else (rest, some (gc now c))

/-- The fresh connection built by `NewCache` when the pool is exhausted:
empty metadata cache, fresh LRU (`none` when `lru.New` fails on a
non-positive capacity), `CreateTimepoint = now`, no connection error. -/
def freshCache (now : Int) (maxCount : Nat) (cid : Nat) : NftablesCache :=
  { tables := []
    recentlyIPCache := if maxCount = 0 then none else some { entries := [], capacity := maxCount }
    CreateTimepoint := now
    connId := cid
    HasNftableConnectionError := false }

/-- Function `NewCache`: pop the pool for a live connection; only when every pooled
entry has expired does it call `openSystemNFTConn` (modelled by the
`connect` oracle, which yields a fresh connection identity or the external
engine's error).  Returns the remaining pool and the acquired connection or
the propagated error. -/
def NewCache (now ttl : Int) (maxCount : Nat) (pool : List NftablesCache)
    (connect : Except String Nat) :
    List NftablesCache × Except String NftablesCache :=
  match newCacheLoop now ttl pool with
  | (rest, some c) => (rest, .ok c)
  | (rest, none) =>
    match connect with
    | .error e => (rest, .error e)
    | .ok cid => (rest, .ok (freshCache now maxCount cid))

/-- The flush step of `CloseCache`: a failed `Flush` sets
`HasNftableConnectionError`. -/
def closeCacheFlush (flushOk : Bool) (cache : NftablesCache) : NftablesCache :=
  if flushOk then cache else { cache with HasNftableConnectionError := true }

/-- Function `CloseCache`: flush, then either destroy the connection (connection error
recorded, or age beyond the TTL) or push it to the back of the pool queue.
Returns the new pool queue. -/
def CloseCache (now ttl : Int) (flushOk : Bool) (pool : List NftablesCache)
    (cache : NftablesCache) : List NftablesCache :=
  let c := closeCacheFlush flushOk cache
  if c.HasNftableConnectionError || ttl < now - c.CreateTimepoint then pool
  else pool ++ [c]

/-- Function `ClearCache`: drain the whole queue, destroying every entry. -/
def ClearCache (pool : List NftablesCache) : List NftablesCache :=
  let _ := pool
  []

/-! ## Metadata cache -/

/-- Association-list lookup keyed by decidable equality, mirroring Go map
indexing. -/
def assocFind {κ α : Type} [BEq κ] (l : List (κ × α)) (k : κ) : Option α :=
  (l.find? (fun p => p.1 == k)).map Prod.snd

/-- Association-list insert/overwrite, mirroring Go map assignment. -/
def assocSet {κ α : Type} [BEq κ] (l : List (κ × α)) (k : κ) (v : α) : List (κ × α) :=
  match l with
  | [] => [(k, v)]
  | (k2, v2) :: rest => if k2 == k then (k, v) :: rest else (k2, v2) :: assocSet rest k v

/-- External calls `MutableNftablesTable` can make against the engine. -/
inductive ExtCall
  | listOfFamily (family : TableFamily)
  | addTable (family : TableFamily) (name : String)
deriving DecidableEq, Repr

/-- The external engine as `MutableNftablesTable` observes it: the table
names `ListTablesOfFamily` reports per family (an error from the listing is
discarded by the code and behaves like an empty result). -/
structure Engine where
  listedTables : TableFamily → List String

/-- Populate a family's table set from a listing result, as the code's loop
over `ListTablesOfFamily` output does. -/
def populateFromListing (family : TableFamily) (names : List String) :
    List (String × NftableCache) :=
  names.foldl (fun s n => assocSet s n { table_family := family, table_name := n }) []

/-- Method `MutableNftablesTable`: resolve (and cache) the handle of table
`tableName` in `family`.  A missing family slot is created; an empty slot is
populated by one listing call; a still-missing table is created by one
`AddTable` call.  Returns the handle, the updated metadata cache, and the
trace of external calls made. -/
def MutableNftablesTable (eng : Engine) (tables : TablesMap) (family : TableFamily)
    (tableName : String) : NftableCache × TablesMap × List ExtCall :=
  let tableSet := match assocFind tables family with
    | some s => s
    | none => []
  let (tableSet, calls) :=
    if tableSet.length = 0 then
      (populateFromListing family (eng.listedTables family), [ExtCall.listOfFamily family])
    else (tableSet, [])
  match assocFind tableSet tableName with
  | some tc => (tc, assocSet tables family tableSet, calls)
  | none =>
    let tc : NftableCache := { table_family := family, table_name := tableName }
    (tc, assocSet tables family (assocSet tableSet tableName tc),
     calls ++ [ExtCall.addTable family tableName])

/-! ## Dispatcher -/

/-- Modelled from the spec: the result of one rule-applier invocation
(`NftablesSetAddElement.ServeDNS`, whose source file is not part of the core
under study).  Per the external-interface contract it returns
`(error, wasIgnored)`; its side effects touch only the metadata cache and
the connection-error flag, never the recency cache, so for recency-cache
claims an outcome oracle suffices. -/
structure ApplierOutcome where
  err : Option String
  ignored : Bool
deriving DecidableEq, Repr

/-- Observable events of one dispatch pass. -/
inductive Event
  | applierCall (family : TableFamily) (ruleIdx : Nat)
  | lruUpdate (ip : String) (counter : Int)
deriving DecidableEq, Repr

/-- The nested loop of `ServeWorker` over the resolved families and each
family's configured `RuleAddElement` appliers: the sequence of
(family, applier index, outcome) triples in invocation order.  `rules` maps a
family to its number of configured appliers (`m.Rules`); families without a
configured rule set contribute nothing. -/
def familyOutcomes (outcome : TableFamily → Nat → ApplierOutcome)
    (rules : List (TableFamily × Nat)) (families : List TableFamily) :
    List (TableFamily × Nat × ApplierOutcome) :=
  (families.map (fun f =>
    match assocFind rules f with
    | some n => (List.range n).map (fun i => (f, i, outcome f i))
    | none => [])).flatten

/-- Flag `hasError` of one record's pass: some applier returned an error. -/
def passHasError (outcome : TableFamily → Nat → ApplierOutcome)
    (rules : List (TableFamily × Nat)) (families : List TableFamily) : Bool :=
  (familyOutcomes outcome rules families).any (fun t => t.2.2.err.isSome)

/-- Counter `applyCounter` of one record's pass: the number of applier invocations
that returned neither an error nor `ignored`. -/
def passApplyCounter (outcome : TableFamily → Nat → ApplierOutcome)
    (rules : List (TableFamily × Nat)) (families : List TableFamily) : Int :=
  ((familyOutcomes outcome rules families).filter
    (fun t => t.2.2.err.isNone && !t.2.2.ignored)).length

/-- The fixed table-family fan-out per record kind, as assigned in the
type switch of `ServeWorker`. -/
def familiesOf : RrType → List TableFamily
  | .A => [TableFamily.IPv4, TableFamily.INet, TableFamily.Bridge]
  | .AAAA => [TableFamily.IPv6, TableFamily.INet, TableFamily.Bridge]
  | .Other => []

/-- The body of `ServeWorker`'s loop for one answer record: ignore-check with
family resolution, fan-out over families and appliers, and the recency update
when the pass had no error.  Returns the new connection state and the pass's
event trace. -/
def serveRecord (maxRetry now lruTtl : Int) (outcome : TableFamily → Nat → ApplierOutcome)
    (rules : List (TableFamily × Nat)) (cache : NftablesCache) (answer : DnsRR) :
    NftablesCache × List Event :=
  match answer.rrtype with
  | .Other => (cache, [])
  | _ =>
    let p := LruIgnoreIp maxRetry cache answer
    if p.1 then (p.2, [])
    else
      let tableFamilies := familiesOf answer.rrtype
      let outs := familyOutcomes outcome rules tableFamilies
      let hasError := passHasError outcome rules tableFamilies
      let applyCounter := passApplyCounter outcome rules tableFamilies
      let events := outs.map (fun t => Event.applierCall t.1 t.2.1)
      if hasError then (p.2, events)
      else
        (LruUpdateIp now lruTtl p.2 answer applyCounter,
         events ++ [Event.lruUpdate answer.ip applyCounter])

/-- Configuration and timing snapshot for one `ServeWorker` run. -/
structure WorkerConfig where
  maxRetry : Int
  now : Int
  connTtl : Int
  lruTtl : Int
  maxCount : Nat
  flushOk : Bool

/-- Method `ServeWorker`: acquire a pooled connection (propagating a connection
error before any record is processed), run the per-record loop over the
answer section, and release the connection.  Returns the new pool, the
propagated result, and the concatenated event trace. -/
def ServeWorker (cfg : WorkerConfig) (outcome : TableFamily → Nat → ApplierOutcome)
    (rules : List (TableFamily × Nat)) (connect : Except String Nat)
    (pool : List NftablesCache) (answers : List DnsRR) :
    List NftablesCache × Except String Unit × List Event :=
  match NewCache cfg.now cfg.connTtl cfg.maxCount pool connect with
  | (pool1, .error e) => (pool1, .error e, [])
  | (pool1, .ok cache0) =>
    let st := answers.foldl
      (fun (st : NftablesCache × List Event) a =>
        let r := serveRecord cfg.maxRetry cfg.now cfg.lruTtl outcome rules st.1 a
        (r.1, st.2 ++ r.2))
      (cache0, [])
    (CloseCache cfg.now cfg.connTtl cfg.flushOk pool1 st.1, .ok (), st.2)

/-! ## Entry point -/

/-- Constant `dns.RcodeSuccess`. -/
def RcodeSuccess : Nat := 0
/-- Constant `dns.RcodeFormatError`. -/
def RcodeFormatError : Nat := 1
/-- Constant `dns.RcodeServerFailure`. -/
def RcodeServerFailure : Nat := 2

/-- Client-visible / external effects of `ServeDNS`. -/
inductive SEvent
  | writeMsg
  | workerRun
deriving DecidableEq, Repr

/-- The answer-section scan of `ServeDNS`: does any answer record have kind
A or AAAA? -/
def hasValidRecord (answers : List DnsRR) : Bool :=
  answers.any (fun a => a.rrtype == RrType.A || a.rrtype == RrType.AAAA)

/-- Method `ServeDNS`: run the next plugin (its rcode, error, and produced message
are oracle inputs), and on a response without A/AAAA answers just write it
back; otherwise run the dispatch pass synchronously before the write, or
asynchronously after it.  `writeResult` is the error `w.WriteMsg` returns.
Result: (rcode, error, effect trace in order, new pool). -/
def ServeDNS (asyncMode : Bool) (cfg : WorkerConfig)
    (outcome : TableFamily → Nat → ApplierOutcome) (rules : List (TableFamily × Nat))
    (connect : Except String Nat) (writeResult : Option String)
    (nextRcode : Nat) (nextErr : Option String) (nextMsg : Option (List DnsRR))
    (pool : List NftablesCache) :
    Nat × Option String × List SEvent × List NftablesCache :=
  match nextErr with
  | some e => (nextRcode, some e, [], pool)
  | none =>
    match nextMsg with
    | none => (RcodeFormatError, some "no answer received", [], pool)
    | some answers =>
      if hasValidRecord answers = false then
        match writeResult with
        | some e => (RcodeFormatError, some e, [SEvent.writeMsg], pool)
        | none => (RcodeSuccess, none, [SEvent.writeMsg], pool)
      else if asyncMode then
        let r := ServeWorker cfg outcome rules connect pool answers
        match writeResult with
        | some e => (RcodeServerFailure, some e, [SEvent.writeMsg, SEvent.workerRun], r.1)
        | none => (nextRcode, none, [SEvent.writeMsg, SEvent.workerRun], r.1)
      else
        let r := ServeWorker cfg outcome rules connect pool answers
        (nextRcode, none, [SEvent.workerRun, SEvent.writeMsg], r.1)

/-- Recognizer for external listing calls in a metadata-resolution trace. -/
def isListingCall : ExtCall → Bool
  | .listOfFamily _ => true
  | _ => false

/-- Recognizer for external table-creation calls in a metadata-resolution
trace. -/
def isAddTableCall : ExtCall → Bool
  | .addTable _ _ => true
  | _ => false

/-- Recognizer for recency-update events (`LruUpdateIp` invocations) in a
pass's trace. -/
def isLruUpdateEvent : Event → Bool
  | .lruUpdate _ _ => true
  | _ => false

/-! ## Concrete fixtures used by witness theorems -/

/-- Fixture: applier outcome oracle where every invocation succeeds. -/
def outcomeOk : TableFamily → Nat → ApplierOutcome := fun _ _ => ⟨none, false⟩

/-- Fixture: applier outcome oracle failing on the inet family. -/
def outcomeINetErr : TableFamily → Nat → ApplierOutcome :=
  fun f _ => if f == TableFamily.INet then ⟨some "netlink error", false⟩ else ⟨none, false⟩

/-- Fixture: one applier configured for ipv4, two for inet. -/
def rulesFix : List (TableFamily × Nat) := [(TableFamily.IPv4, 1), (TableFamily.INet, 2)]

/-- Fixture: an A answer record. -/
def answerA : DnsRR := { rrtype := RrType.A, ip := "1.2.3.4", name := "example.org." }

/-- A recency cache whose LRU order is: expired, unexpired, expired (at
instant 10). -/
def lruMixed : LruCache :=
  { entries := [("a", { ExpireTime := 5, ApplyCount := 1 }),
                ("b", { ExpireTime := 20, ApplyCount := 2 }),
                ("c", { ExpireTime := 3, ApplyCount := 1 })],
    capacity := 3 }

/-- A pooled connection carrying `lruMixed`. -/
def cacheMixed : NftablesCache :=
  { tables := [], recentlyIPCache := some lruMixed, CreateTimepoint := 0, connId := 1,
    HasNftableConnectionError := false }

/-- Iterated `LruUpdateIp` for the same answer: `n` sequential dispatch-pass
recordings. -/
def lruUpdateIter (now lruTtl cnt : Int) (a : DnsRR) (cache : NftablesCache) :
    Nat → NftablesCache
  | 0 => cache
  | n + 1 => LruUpdateIp now lruTtl (lruUpdateIter now lruTtl cnt a cache n) a cnt

/-! ## Lemmas about the LRU embedding -/

theorem mem_filter_key_ne {α : Type} {l : List (String × α)} {k : String} :
    ∀ p ∈ l.filter (fun q => q.1 != k), (p.1 == k) = false := by
  intro p hp
  have h := (List.mem_filter.mp hp).2
  simpa [bne] using h

theorem find?_key_append_last {α : Type} {l : List (String × α)} {k : String} (v : α)
    (h : ∀ p ∈ l, (p.1 == k) = false) :
    (l ++ [(k, v)]).find? (fun p => p.1 == k) = some (k, v) := by
  have hnone : l.find? (fun p => p.1 == k) = none := by
    apply List.find?_eq_none.mpr
    intro x hx
    simp [h x hx]
  simp [List.find?_append, hnone]

theorem lruPeek_moveToBack (c : LruCache) (k : String) (v : NftableIPCache) :
    lruPeek (lruMoveToBack c k v) k = some v := by
  unfold lruPeek lruMoveToBack
  rw [find?_key_append_last v mem_filter_key_ne]
  rfl

theorem lruPeek_lruAdd (c : LruCache) (k : String) (v : NftableIPCache)
    (hcap : 1 ≤ c.capacity) : lruPeek (lruAdd c k v) k = some v := by
  unfold lruPeek lruAdd
  cases hf : c.entries.filter (fun q => q.1 != k) with
  | nil =>
    have hc0 : ¬ c.capacity = 0 := by omega
    simp [hf, hc0]
  | cons x xs =>
    have hx : ∀ p ∈ x :: xs, (p.1 == k) = false := by
      rw [← hf]; exact mem_filter_key_ne
    have hxs : ∀ p ∈ xs, (p.1 == k) = false := fun p hp => hx p (List.mem_cons_of_mem x hp)
    simp only [hf]
    by_cases hlen : c.capacity < ((x :: xs) ++ [(k, v)]).length
    · simp only [hlen, if_pos]
      rw [List.cons_append, List.tail_cons, find?_key_append_last v hxs]
      rfl
    · simp only [hlen, if_neg, not_false_iff]
      rw [find?_key_append_last v hx]
      rfl

theorem recLookup_LruIgnoreIp (maxRetry : Int) (cache : NftablesCache) (a : DnsRR) :
    recLookup (LruIgnoreIp maxRetry cache a).2 a.ip = recLookup cache a.ip := by
  obtain ⟨tb, rc, ct, ci, he⟩ := cache
  obtain ⟨ty, ip, nm⟩ := a
  cases rc with
  | none => rfl
  | some lru =>
    cases ty with
    | Other => rfl
    | A =>
      simp only [LruIgnoreIp, recLookup]
      by_cases hip : ip.length = 0
      · simp [hip]
      · simp only [hip, if_neg, not_false_iff]
        cases hv : lruPeek lru ip with
        | none => simp [hv]
        | some v =>
          simp only [Option.some_bind]
          rw [lruPeek_moveToBack, hv]
    | AAAA =>
      simp only [LruIgnoreIp, recLookup]
      by_cases hip : ip.length = 0
      · simp [hip]
      · simp only [hip, if_neg, not_false_iff]
        cases hv : lruPeek lru ip with
        | none => simp [hv]
        | some v =>
          simp only [Option.some_bind]
          rw [lruPeek_moveToBack, hv]

theorem recLookup_LruUpdateIp_found (now lruTtl k : Int) (cache : NftablesCache)
    (a : DnsRR) (v : NftableIPCache) (hty : a.rrtype ≠ RrType.Other)
    (hip0 : a.ip.length ≠ 0) (hv : recLookup cache a.ip = some v) :
    recLookup (LruUpdateIp now lruTtl cache a k) a.ip =
      some { ExpireTime := v.ExpireTime, ApplyCount := v.ApplyCount + 1 } ∧
    (LruUpdateIp now lruTtl cache a k).recentlyIPCache.isSome = true := by
  obtain ⟨tb, rc, ct, ci, he⟩ := cache
  obtain ⟨ty, ip, nm⟩ := a
  cases rc with
  | none => simp [recLookup] at hv
  | some lru =>
    simp only [recLookup, Option.some_bind] at hv
    have hip : ¬ ip.length = 0 := hip0
    cases ty with
    | Other => exact absurd rfl hty
    | A =>
      simp only [LruUpdateIp, hip, if_neg, not_false_iff, hv, recLookup, Option.some_bind]
      exact ⟨lruPeek_moveToBack lru ip _, rfl⟩
    | AAAA =>
      simp only [LruUpdateIp, hip, if_neg, not_false_iff, hv, recLookup, Option.some_bind]
      exact ⟨lruPeek_moveToBack lru ip _, rfl⟩

theorem recLookup_LruUpdateIp_absent (now lruTtl k : Int) (cache : NftablesCache)
    (a : DnsRR) (lru : LruCache) (hty : a.rrtype ≠ RrType.Other)
    (hip : a.ip.length ≠ 0) (hc : cache.recentlyIPCache = some lru)
    (hcap : 1 ≤ lru.capacity) (hnone : recLookup cache a.ip = none) :
    recLookup (LruUpdateIp now lruTtl cache a k) a.ip =
      some { ExpireTime := now + lruTtl, ApplyCount := 1 } := by
  obtain ⟨tb, rc, ct, ci, he⟩ := cache
  obtain ⟨ty, ip, nm⟩ := a
  simp only at hc hip hty
  subst hc
  simp only [recLookup, Option.some_bind] at hnone
  cases ty with
  | Other => exact absurd rfl hty
  | A =>
    simp only [LruUpdateIp, hip, if_neg, not_false_iff, hnone, recLookup, Option.some_bind]
    exact lruPeek_lruAdd lru ip _ hcap
  | AAAA =>
    simp only [LruUpdateIp, hip, if_neg, not_false_iff, hnone, recLookup, Option.some_bind]
    exact lruPeek_lruAdd lru ip _ hcap

theorem recLookup_lruUpdateIter (now lruTtl k : Int) (cache : NftablesCache)
    (a : DnsRR) (lru : LruCache) (hty : a.rrtype ≠ RrType.Other)
    (hip : a.ip.length ≠ 0) (hc : cache.recentlyIPCache = some lru)
    (hcap : 1 ≤ lru.capacity) (hnone : recLookup cache a.ip = none) :
    ∀ n : Nat, recLookup (lruUpdateIter now lruTtl k a cache (n + 1)) a.ip =
      some { ExpireTime := now + lruTtl, ApplyCount := (n : Int) + 1 } := by
  intro n
  induction n with
  | zero =>
    simpa [lruUpdateIter] using
      recLookup_LruUpdateIp_absent now lruTtl k cache a lru hty hip hc hcap hnone
  | succ m ih =>
    have step := recLookup_LruUpdateIp_found now lruTtl k
      (lruUpdateIter now lruTtl k a cache (m + 1)) a
      { ExpireTime := now + lruTtl, ApplyCount := (m : Int) + 1 } hty hip ih
    have : ((m : Int) + 1) + 1 = ((m + 1 : Nat) : Int) + 1 := by push_cast; ring
    rw [show lruUpdateIter now lruTtl k a cache (m + 1 + 1) =
          LruUpdateIp now lruTtl (lruUpdateIter now lruTtl k a cache (m + 1)) a k from rfl,
        step.1]
    simp only [this]

/-! ## Claim theorems: recency cache -/

/-- C3: `LruUpdateIp` on an address with an existing recency entry increments
its attempt counter by exactly 1, irrespective of the `rulesCounter` argument,
and does not change the entry's expiry time; on an absent address it inserts a
new entry with expiry `now + setLruTimeout` and counter 1; hence `n`
sequential calls for the same fresh address store counter `n`. -/
theorem LruUpdateIp_count_spec (now lruTtl k k2 : Int) (cache : NftablesCache)
    (a : DnsRR) (lru : LruCache) (hty : a.rrtype ≠ RrType.Other)
    (hip : a.ip.length ≠ 0) (hc : cache.recentlyIPCache = some lru)
    (hcap : 1 ≤ lru.capacity) :
    LruUpdateIp now lruTtl cache a k = LruUpdateIp now lruTtl cache a k2 ∧
    (∀ v, recLookup cache a.ip = some v →
      recLookup (LruUpdateIp now lruTtl cache a k) a.ip =
        some { ExpireTime := v.ExpireTime, ApplyCount := v.ApplyCount + 1 }) ∧
    (recLookup cache a.ip = none →
      recLookup (LruUpdateIp now lruTtl cache a k) a.ip =
        some { ExpireTime := now + lruTtl, ApplyCount := 1 }) ∧
    (recLookup cache a.ip = none → ∀ n : Nat,
      recLookup (lruUpdateIter now lruTtl k a cache (n + 1)) a.ip =
        some { ExpireTime := now + lruTtl, ApplyCount := (n : Int) + 1 }) := by
  refine ⟨rfl, ?_, ?_, ?_⟩
  · intro v hv
    exact (recLookup_LruUpdateIp_found now lruTtl k cache a v hty hip hv).1
  · intro hnone
    exact recLookup_LruUpdateIp_absent now lruTtl k cache a lru hty hip hc hcap hnone
  · intro hnone n
    exact recLookup_lruUpdateIter now lruTtl k cache a lru hty hip hc hcap hnone n

/-- Witness for C3 at concrete inputs: a fresh connection, the A record for
`1.2.3.4`, three sequential updates. -/
theorem LruUpdateIp_count_spec_witness :
    (freshCache 100 3 7).recentlyIPCache = some { entries := [], capacity := 3 } ∧
    recLookup (lruUpdateIter 100 50 5 { rrtype := RrType.A, ip := "1.2.3.4", name := "x." }
        (freshCache 100 3 7) 3) "1.2.3.4" =
      some { ExpireTime := 150, ApplyCount := 3 } := by
  have h := LruUpdateIp_count_spec 100 50 5 9 (freshCache 100 3 7)
    { rrtype := RrType.A, ip := "1.2.3.4", name := "x." }
    { entries := [], capacity := 3 }
    (by decide) (by decide) (by rfl) (by decide)
  refine ⟨rfl, ?_⟩
  have := h.2.2.2 (by rfl) 2
  simpa using this

/-- C4: `LruIgnoreIp` returns true iff a recency entry exists for the
record's address and its attempt counter has reached the configured
max-retries threshold; an absent address, or a counter below the threshold,
yields false. -/
theorem LruIgnoreIp_iff_spec (maxRetry : Int) (cache : NftablesCache) (a : DnsRR)
    (lru : LruCache) (hty : a.rrtype ≠ RrType.Other) (hip : a.ip.length ≠ 0)
    (hc : cache.recentlyIPCache = some lru) :
    (LruIgnoreIp maxRetry cache a).1 = true ↔
      ∃ v, recLookup cache a.ip = some v ∧ maxRetry ≤ v.ApplyCount := by
  obtain ⟨tb, rc, ct, ci, he⟩ := cache
  obtain ⟨ty, ip, nm⟩ := a
  simp only at hc hip hty
  subst hc
  cases ty with
  | Other => exact absurd rfl hty
  | A =>
    simp only [LruIgnoreIp, hip, if_neg, not_false_iff, recLookup, Option.some_bind]
    cases hv : lruPeek lru ip with
    | none => simp
    | some v => simp [decide_eq_true_iff]
  | AAAA =>
    simp only [LruIgnoreIp, hip, if_neg, not_false_iff, recLookup, Option.some_bind]
    cases hv : lruPeek lru ip with
    | none => simp
    | some v => simp [decide_eq_true_iff]

/-- Witness for C4: after two updates with threshold 2 the address is
ignored. -/
theorem LruIgnoreIp_iff_spec_witness :
    (LruIgnoreIp 2 (lruUpdateIter 100 50 5 { rrtype := RrType.A, ip := "1.2.3.4", name := "x." }
        (freshCache 100 3 7) 2) { rrtype := RrType.A, ip := "1.2.3.4", name := "x." }).1 = true := by
  rw [LruIgnoreIp_iff_spec 2 _ _ { entries := [("1.2.3.4", { ExpireTime := 150, ApplyCount := 2 })], capacity := 3 }
    (by decide) (by decide) (by rfl)]
  exact ⟨{ ExpireTime := 150, ApplyCount := 2 }, by rfl, by decide⟩

/-! ## Lemmas about gc and the pool -/

theorem gcEntries_spec (now : Int) (l : List (String × NftableIPCache)) :
    ∃ dropped, l = dropped ++ gcEntries now l ∧
      (∀ p ∈ dropped, p.2.ExpireTime ≤ now) ∧
      (∀ p, (gcEntries now l).head? = some p → now < p.2.ExpireTime) := by
  induction l with
  | nil => exact ⟨[], rfl, by simp, by simp [gcEntries]⟩
  | cons x xs ih =>
    obtain ⟨k, v⟩ := x
    by_cases hx : now < v.ExpireTime
    · refine ⟨[], by simp [gcEntries, hx], by simp, ?_⟩
      intro p hp
      simp only [gcEntries, hx, if_pos, List.head?_cons, Option.some.injEq] at hp
      subst hp
      exact hx
    · obtain ⟨d, hd, hexp, hhead⟩ := ih
      refine ⟨(k, v) :: d, ?_, ?_, ?_⟩
      · simp only [gcEntries, hx, if_neg, not_false_iff, List.cons_append]
        exact congrArg _ hd
      · intro p hp
        rcases List.mem_cons.mp hp with h | h
        · subst h
          change v.ExpireTime ≤ now
          omega
        · exact hexp p h
      · intro p hp
        apply hhead
        simpa [gcEntries, hx] using hp

theorem gc_fields (now : Int) (cache : NftablesCache) :
    (gc now cache).CreateTimepoint = cache.CreateTimepoint ∧
    (gc now cache).connId = cache.connId := by
  obtain ⟨tb, rc, ct, ci, he⟩ := cache
  cases rc <;> exact ⟨rfl, rfl⟩

theorem closeCacheFlush_fields (flushOk : Bool) (cache : NftablesCache) :
    (closeCacheFlush flushOk cache).CreateTimepoint = cache.CreateTimepoint ∧
    (closeCacheFlush flushOk cache).connId = cache.connId := by
  cases flushOk <;> exact ⟨rfl, rfl⟩

theorem newCacheLoop_some_spec (now ttl : Int) :
    ∀ (pool rest : List NftablesCache) (c : NftablesCache),
      newCacheLoop now ttl pool = (rest, some c) →
      ∃ l1 c0, pool = l1 ++ c0 :: rest ∧
        (∀ d ∈ l1, ttl < now - d.CreateTimepoint) ∧
        now - c0.CreateTimepoint ≤ ttl ∧ c = gc now c0 := by
  intro pool
  induction pool with
  | nil => intro rest c h; simp [newCacheLoop] at h
  | cons x xs ih =>
    intro rest c h
    by_cases hx : ttl < now - x.CreateTimepoint
    · rw [newCacheLoop, if_pos hx] at h
      obtain ⟨l1, c0, h1, h2, h3, h4⟩ := ih rest c h
      refine ⟨x :: l1, c0, by simp [h1], ?_, h3, h4⟩
      intro d hd
      rcases List.mem_cons.mp hd with h | h
      · subst h; exact hx
      · exact h2 d h
    · rw [newCacheLoop, if_neg hx] at h
      obtain ⟨h1, h2⟩ := Prod.mk.injEq .. ▸ h
      have hrest : xs = rest := congrArg Prod.fst h
      have hc : some (gc now x) = some c := congrArg Prod.snd h
      refine ⟨[], x, by simp [hrest], by simp, by omega, ?_⟩
      exact (Option.some.injEq .. ▸ hc).symm

theorem newCacheLoop_none_spec (now ttl : Int) :
    ∀ (pool rest : List NftablesCache),
      newCacheLoop now ttl pool = (rest, none) →
      rest = [] ∧ ∀ d ∈ pool, ttl < now - d.CreateTimepoint := by
  intro pool
  induction pool with
  | nil =>
    intro rest h
    have : rest = [] := (congrArg Prod.fst h).symm
    exact ⟨this, by simp⟩
  | cons x xs ih =>
    intro rest h
    by_cases hx : ttl < now - x.CreateTimepoint
    · rw [newCacheLoop, if_pos hx] at h
      obtain ⟨h1, h2⟩ := ih rest h
      refine ⟨h1, ?_⟩
      intro d hd
      rcases List.mem_cons.mp hd with hh | hh
      · subst hh; exact hx
      · exact h2 d hh
    · rw [newCacheLoop, if_neg hx] at h
      exact absurd (congrArg Prod.snd h) (by simp)

theorem NewCache_ok_cases (now ttl : Int) (maxCount : Nat) (pool : List NftablesCache)
    (connect : Except String Nat) (rest : List NftablesCache) (c : NftablesCache)
    (h : NewCache now ttl maxCount pool connect = (rest, Except.ok c)) :
    (∃ l1 c0, pool = l1 ++ c0 :: rest ∧
       (∀ d ∈ l1, ttl < now - d.CreateTimepoint) ∧
       now - c0.CreateTimepoint ≤ ttl ∧ c = gc now c0) ∨
    ((∀ d ∈ pool, ttl < now - d.CreateTimepoint) ∧ rest = [] ∧
       connect = Except.ok c.connId ∧ c = freshCache now maxCount c.connId) := by
  unfold NewCache at h
  cases hl : newCacheLoop now ttl pool with
  | mk r o =>
    rw [hl] at h
    cases o with
    | some c2 =>
      have hr : r = rest := congrArg Prod.fst h
      have hc2 : c2 = c := by
        have := congrArg Prod.snd h
        simpa using this
      subst hr hc2
      exact Or.inl (newCacheLoop_some_spec now ttl pool _ _ hl)
    | none =>
      obtain ⟨hr, hall⟩ := newCacheLoop_none_spec now ttl pool r hl
      subst hr
      cases connect with
      | error e => exact absurd (congrArg Prod.snd h) (by simp)
      | ok cid =>
        have hrest : rest = [] := (congrArg Prod.fst h).symm
        have hc : freshCache now maxCount cid = c := by
          have := congrArg Prod.snd h
          simpa using this
        right
        refine ⟨hall, hrest, ?_, ?_⟩
        · rw [← hc]; rfl
        · rw [← hc]; rfl

/-! ## Claim theorems: connection pool -/

/-- C9: `gc` repeatedly examines the least-recently-used recency entry,
evicts it iff its expiry is not in the future, stops at the first
least-recently-used entry that has not expired, leaves the remaining entries
untouched, and afterwards the least-recently-used entry (if any) is
unexpired. -/
theorem gc_lazy_expiry_spec (now : Int) (cache : NftablesCache) (lru : LruCache)
    (hc : cache.recentlyIPCache = some lru) :
    ∃ dropped kept, lru.entries = dropped ++ kept ∧
      gc now cache = { cache with recentlyIPCache := some { lru with entries := kept } } ∧
      (∀ p ∈ dropped, p.2.ExpireTime ≤ now) ∧
      (∀ p, kept.head? = some p → now < p.2.ExpireTime) := by
  obtain ⟨d, hd, hexp, hhead⟩ := gcEntries_spec now lru.entries
  refine ⟨d, gcEntries now lru.entries, hd, ?_, hexp, hhead⟩
  obtain ⟨tb, rc, ct, ci, he⟩ := cache
  simp only at hc
  subst hc
  rfl

/-- Witness for C9: a cache whose LRU order holds an expired entry in front
of an unexpired one in front of an expired one; only the front entry is
evicted. -/
theorem gc_lazy_expiry_spec_witness :
    cacheMixed.recentlyIPCache = some lruMixed ∧
    ∃ dropped kept, lruMixed.entries = dropped ++ kept ∧
      gc 10 cacheMixed =
        { cacheMixed with recentlyIPCache := some { lruMixed with entries := kept } } ∧
      (∀ p ∈ dropped, p.2.ExpireTime ≤ 10) ∧
      (∀ p, kept.head? = some p → 10 < p.2.ExpireTime) :=
  ⟨rfl, gc_lazy_expiry_spec 10 cacheMixed lruMixed rfl⟩

/-- C2: `NewCache` never hands out a pooled connection older than the pool
TTL: every entry popped before the returned one had exceeded the TTL and was
discarded, the returned entry is within the TTL and has had its
recency-cache gc pass run; only when the whole queue was discarded is a
fresh connection built (from the `connect` oracle). -/
theorem NewCache_ttl_spec (now ttl : Int) (maxCount : Nat) (pool : List NftablesCache)
    (connect : Except String Nat) (rest : List NftablesCache) (c : NftablesCache)
    (h : NewCache now ttl maxCount pool connect = (rest, Except.ok c)) :
    (∃ l1 c0, pool = l1 ++ c0 :: rest ∧
       (∀ d ∈ l1, ttl < now - d.CreateTimepoint) ∧
       now - c0.CreateTimepoint ≤ ttl ∧ c = gc now c0 ∧
       now - c.CreateTimepoint ≤ ttl) ∨
    ((∀ d ∈ pool, ttl < now - d.CreateTimepoint) ∧ rest = [] ∧
       connect = Except.ok c.connId ∧ c = freshCache now maxCount c.connId) := by
  rcases NewCache_ok_cases now ttl maxCount pool connect rest c h with
    ⟨l1, c0, h1, h2, h3, h4⟩ | hfresh
  · left
    refine ⟨l1, c0, h1, h2, h3, h4, ?_⟩
    rw [h4, (gc_fields now c0).1]
    exact h3
  · right
    exact hfresh

/-- Witness for C2: a pool holding an expired connection in front of a live
one; the expired one is skipped, the live one is returned gc-ed. -/
theorem NewCache_ttl_spec_witness :
    NewCache 100 50 3 [freshCache 0 3 1, freshCache 95 3 2] (Except.ok 9) =
      ([], Except.ok (freshCache 95 3 2)) ∧
    ((∃ l1 c0, [freshCache 0 3 1, freshCache 95 3 2] = l1 ++ c0 :: ([] : List NftablesCache) ∧
       (∀ d ∈ l1, (50 : Int) < 100 - d.CreateTimepoint) ∧
       (100 : Int) - c0.CreateTimepoint ≤ 50 ∧ freshCache 95 3 2 = gc 100 c0 ∧
       (100 : Int) - (freshCache 95 3 2).CreateTimepoint ≤ 50) ∨
     ((∀ d ∈ [freshCache 0 3 1, freshCache 95 3 2], (50 : Int) < 100 - d.CreateTimepoint) ∧
       ([] : List NftablesCache) = [] ∧
       (Except.ok 9 : Except String Nat) = Except.ok (freshCache 95 3 2).connId ∧
       freshCache 95 3 2 = freshCache 100 3 (freshCache 95 3 2).connId)) :=
  ⟨by rfl,
   NewCache_ttl_spec 100 50 3 [freshCache 0 3 1, freshCache 95 3 2] (Except.ok 9) []
     (freshCache 95 3 2) (by rfl)⟩

/-- C5: `CloseCache` first flushes (a failed flush marks the connection
unhealthy); an unhealthy or over-TTL connection is destroyed and never pushed
back to the queue, so a subsequent `NewCache` on a pool not containing its
identity can never return that identity; otherwise the connection goes to the
back of the queue. -/
theorem CloseCache_discard_spec (now ttl : Int) (flushOk : Bool)
    (pool : List NftablesCache) (cache : NftablesCache) :
    (flushOk = false → (closeCacheFlush flushOk cache).HasNftableConnectionError = true) ∧
    ((closeCacheFlush flushOk cache).HasNftableConnectionError = true ∨
        ttl < now - cache.CreateTimepoint →
      CloseCache now ttl flushOk pool cache = pool) ∧
    ((closeCacheFlush flushOk cache).HasNftableConnectionError = false ∧
        now - cache.CreateTimepoint ≤ ttl →
      CloseCache now ttl flushOk pool cache = pool ++ [closeCacheFlush flushOk cache]) ∧
    (∀ (q rest : List NftablesCache) (d : NftablesCache) (connect : Except String Nat)
        (maxCount : Nat),
      cache.connId ∉ q.map (fun x => x.connId) →
      (∀ cid : Nat, connect = Except.ok cid → cid ≠ cache.connId) →
      NewCache now ttl maxCount q connect = (rest, Except.ok d) →
      d.connId ≠ cache.connId) := by
  have hct := (closeCacheFlush_fields flushOk cache).1
  refine ⟨?_, ?_, ?_, ?_⟩
  · intro h
    subst h
    rfl
  · intro h
    rcases h with h | h
    · simp [CloseCache, h]
    · rw [CloseCache]
      rw [hct]
      simp [h]
  · rintro ⟨h1, h2⟩
    rw [CloseCache]
    rw [hct]
    have h2' : ¬ ttl < now - cache.CreateTimepoint := by omega
    simp [h1, h2']
  · intro q rest d connect maxCount hq hcid h
    rcases NewCache_ok_cases now ttl maxCount q connect rest d h with
      ⟨l1, c0, h1, h2, h3, h4⟩ | ⟨hall, hrest, hconn, hfresh⟩
    · have hmem : c0 ∈ q := by
        rw [h1]
        exact List.mem_append_right l1 (List.mem_cons_self c0 rest)
      have hdid : d.connId = c0.connId := by rw [h4]; exact (gc_fields now c0).2
      rw [hdid]
      intro hEq
      exact hq (List.mem_map.mpr ⟨c0, hmem, hEq⟩)
    · exact (hcid d.connId hconn).symm ∘ Eq.symm ∘ id

/-- Witness for C5: a failed flush on an in-TTL connection keeps it out of
the empty pool; a clean close pushes it to the back; a fresh acquire from an
empty pool yields a different identity. -/
theorem CloseCache_discard_spec_witness :
    (closeCacheFlush false (freshCache 95 3 2)).HasNftableConnectionError = true ∧
    CloseCache 100 50 false [] (freshCache 95 3 2) = [] ∧
    CloseCache 100 50 true [] (freshCache 95 3 2) = [freshCache 95 3 2] ∧
    (freshCache 100 3 9).connId ≠ (freshCache 95 3 2).connId := by
  have h := CloseCache_discard_spec 100 50 false [] (freshCache 95 3 2)
  have h2 := CloseCache_discard_spec 100 50 true [] (freshCache 95 3 2)
  refine ⟨h.1 rfl, h.2.1 (Or.inl (h.1 rfl)), ?_, ?_⟩
  · have := h2.2.2.1 ⟨rfl, by decide⟩
    simpa using this
  · exact h.2.2.2 [] [] (freshCache 100 3 9) (Except.ok 9) 3 (by simp)
      (by intro cid hcid; cases hcid; decide) (by rfl)

/-- C6: when the pool queue is empty and establishing a new external
connection fails, `ServeWorker` propagates the error to its caller and the
dispatch pass aborts before any record is processed (no events, empty
pool). -/
theorem ServeWorker_connect_error_spec (cfg : WorkerConfig)
    (outcome : TableFamily → Nat → ApplierOutcome) (rules : List (TableFamily × Nat))
    (e : String) (answers : List DnsRR) :
    ServeWorker cfg outcome rules (Except.error e) [] answers =
      ([], Except.error e, []) := rfl

/-! ## Claim theorems: dispatcher -/

theorem filter_lruUpdate_applierCalls (outs : List (TableFamily × Nat × ApplierOutcome)) :
    (outs.map (fun t => Event.applierCall t.1 t.2.1)).filter isLruUpdateEvent = [] := by
  induction outs with
  | nil => rfl
  | cons x xs ih => simpa [isLruUpdateEvent] using ih

/-- C1: for a record that reaches the fan-out (not skipped, not ignored), if
any applier invocation errors, the recency-cache entry for the record's
address is left unchanged and no recency update happens in the pass; if none
errors, `LruUpdateIp` is invoked exactly once for the address, with the
pass's success counter, whatever its value. -/
theorem serveRecord_recency_atomic_spec (maxRetry now lruTtl : Int)
    (outcome : TableFamily → Nat → ApplierOutcome) (rules : List (TableFamily × Nat))
    (cache : NftablesCache) (answer : DnsRR)
    (hty : answer.rrtype ≠ RrType.Other)
    (hig : (LruIgnoreIp maxRetry cache answer).1 = false) :
    (passHasError outcome rules (familiesOf answer.rrtype) = true →
      recLookup (serveRecord maxRetry now lruTtl outcome rules cache answer).1 answer.ip =
        recLookup cache answer.ip ∧
      (serveRecord maxRetry now lruTtl outcome rules cache answer).2.filter
        isLruUpdateEvent = []) ∧
    (passHasError outcome rules (familiesOf answer.rrtype) = false →
      (serveRecord maxRetry now lruTtl outcome rules cache answer).2.filter
        isLruUpdateEvent =
      [Event.lruUpdate answer.ip
        (passApplyCounter outcome rules (familiesOf answer.rrtype))]) := by
  have hpres := recLookup_LruIgnoreIp maxRetry cache answer
  obtain ⟨ty, ip, nm⟩ := answer
  cases ty with
  | Other => exact absurd rfl hty
  | A =>
    constructor
    · intro hE
      simp only [serveRecord, hig, if_neg, Bool.false_eq_true, not_false_iff, hE, if_pos]
      exact ⟨hpres, filter_lruUpdate_applierCalls _⟩
    · intro hE
      simp only [serveRecord, hig, if_neg, Bool.false_eq_true, not_false_iff, hE,
        List.filter_append, filter_lruUpdate_applierCalls, List.nil_append]
      rfl
  | AAAA =>
    constructor
    · intro hE
      simp only [serveRecord, hig, if_neg, Bool.false_eq_true, not_false_iff, hE, if_pos]
      exact ⟨hpres, filter_lruUpdate_applierCalls _⟩
    · intro hE
      simp only [serveRecord, hig, if_neg, Bool.false_eq_true, not_false_iff, hE,
        List.filter_append, filter_lruUpdate_applierCalls, List.nil_append]
      rfl

/-- Witness for C1: with an applier failing on inet the recency entry for
`1.2.3.4` is untouched; with all appliers succeeding exactly one recency
update for `1.2.3.4` is recorded. -/
theorem serveRecord_recency_atomic_spec_witness :
    (LruIgnoreIp 10 (freshCache 100 3 7) answerA).1 = false ∧
    passHasError outcomeINetErr rulesFix (familiesOf answerA.rrtype) = true ∧
    recLookup (serveRecord 10 100 50 outcomeINetErr rulesFix
        (freshCache 100 3 7) answerA).1 answerA.ip =
      recLookup (freshCache 100 3 7) answerA.ip ∧
    passHasError outcomeOk rulesFix (familiesOf answerA.rrtype) = false ∧
    (serveRecord 10 100 50 outcomeOk rulesFix (freshCache 100 3 7) answerA).2.filter
        isLruUpdateEvent =
      [Event.lruUpdate answerA.ip
        (passApplyCounter outcomeOk rulesFix (familiesOf answerA.rrtype))] := by
  have h1 := serveRecord_recency_atomic_spec 10 100 50 outcomeINetErr rulesFix
    (freshCache 100 3 7) answerA (by decide) (by rfl)
  have h2 := serveRecord_recency_atomic_spec 10 100 50 outcomeOk rulesFix
    (freshCache 100 3 7) answerA (by decide) (by rfl)
  exact ⟨rfl, rfl, (h1.1 rfl).1, rfl, h2.2 rfl⟩

/-- C7: the dispatcher resolves the fixed non-empty family fan-out per
record kind — an A record to exactly ipv4, inet, bridge and an AAAA record
to exactly ipv6, inet, bridge — and a record of any other kind resolves no
families and triggers no work: the connection state is untouched and no
applier call or recency access happens. -/
theorem familiesOf_fanout_spec (maxRetry now lruTtl : Int)
    (outcome : TableFamily → Nat → ApplierOutcome) (rules : List (TableFamily × Nat))
    (cache : NftablesCache) (ip nm : String) :
    familiesOf RrType.A = [TableFamily.IPv4, TableFamily.INet, TableFamily.Bridge] ∧
    familiesOf RrType.AAAA = [TableFamily.IPv6, TableFamily.INet, TableFamily.Bridge] ∧
    familiesOf RrType.A ≠ [] ∧ familiesOf RrType.AAAA ≠ [] ∧
    (GetFamilyName TableFamily.IPv4, GetFamilyName TableFamily.IPv6,
      GetFamilyName TableFamily.INet, GetFamilyName TableFamily.Bridge) =
        ("ipv4", "ipv6", "inet", "bridge") ∧
    serveRecord maxRetry now lruTtl outcome rules cache
      { rrtype := RrType.Other, ip := ip, name := nm } = (cache, []) :=
  ⟨rfl, rfl, by simp [familiesOf], by simp [familiesOf], rfl, rfl⟩

/-! ## Lemmas about the metadata cache -/

theorem assocFind_assocSet {κ α : Type} [BEq κ] [LawfulBEq κ]
    (l : List (κ × α)) (k : κ) (v : α) :
    assocFind (assocSet l k v) k = some v := by
  induction l with
  | nil => simp [assocSet, assocFind]
  | cons x xs ih =>
    obtain ⟨k2, v2⟩ := x
    by_cases hk : (k2 == k) = true
    · simp [assocSet, hk, assocFind]
    · simp only [assocSet, hk, if_neg, Bool.false_eq_true, not_false_iff]
      simpa [assocFind, List.find?_cons, hk] using ih

theorem assocSet_self {κ α : Type} [BEq κ] [LawfulBEq κ]
    (l : List (κ × α)) (k : κ) (v : α) (h : assocFind l k = some v) :
    assocSet l k v = l := by
  induction l with
  | nil => simp [assocFind] at h
  | cons x xs ih =>
    obtain ⟨k2, v2⟩ := x
    by_cases hk : (k2 == k) = true
    · have hk2 : k2 = k := eq_of_beq hk
      have hv : v2 = v := by
        simpa [assocFind, List.find?_cons, hk] using h
      simp [assocSet, hk, hk2, hv]
    · have h' : assocFind xs k = some v := by
        simpa [assocFind, List.find?_cons, hk] using h
      simp [assocSet, hk, ih h']

theorem assocFind_length_ne_zero {κ α : Type} [BEq κ]
    (l : List (κ × α)) (k : κ) (v : α) (h : assocFind l k = some v) :
    ¬ l.length = 0 := by
  cases l with
  | nil => simp [assocFind] at h
  | cons x xs => simp

theorem assocSet_length_ne_zero {κ α : Type} [BEq κ]
    (l : List (κ × α)) (k : κ) (v : α) : ¬ (assocSet l k v).length = 0 := by
  cases l with
  | nil => simp [assocSet]
  | cons x xs =>
    obtain ⟨k2, v2⟩ := x
    by_cases hk : (k2 == k) = true <;> simp [assocSet, hk]

theorem MutableNftablesTable_caches (eng : Engine) (tables : TablesMap)
    (family : TableFamily) (tableName : String) :
    ∃ s : List (String × NftableCache),
      (MutableNftablesTable eng tables family tableName).2.1 = assocSet tables family s ∧
      assocFind s tableName = some (MutableNftablesTable eng tables family tableName).1 ∧
      ¬ s.length = 0 := by
  simp only [MutableNftablesTable]
  split
  · next tc heq =>
    exact ⟨_, rfl, heq, assocFind_length_ne_zero _ _ _ heq⟩
  · next heq =>
    exact ⟨_, rfl, assocFind_assocSet _ _ _, assocSet_length_ne_zero _ _ _⟩

theorem MutableNftablesTable_hit (eng : Engine) (t2 : TablesMap) (family : TableFamily)
    (tableName : String) (s : List (String × NftableCache)) (tc : NftableCache)
    (h1 : assocFind t2 family = some s) (h2 : ¬ s.length = 0)
    (h3 : assocFind s tableName = some tc) :
    MutableNftablesTable eng t2 family tableName = (tc, t2, []) := by
  simp only [MutableNftablesTable, h1, h2, if_neg, not_false_iff, h3]
  rw [assocSet_self t2 family s h1]

theorem MutableNftablesTable_calls_cases (eng : Engine) (tables : TablesMap)
    (family : TableFamily) (tableName : String) :
    (MutableNftablesTable eng tables family tableName).2.2 = [] ∨
    (MutableNftablesTable eng tables family tableName).2.2 = [ExtCall.listOfFamily family] ∨
    (MutableNftablesTable eng tables family tableName).2.2 = [ExtCall.addTable family tableName] ∨
    (MutableNftablesTable eng tables family tableName).2.2 =
      [ExtCall.listOfFamily family, ExtCall.addTable family tableName] := by
  simp only [MutableNftablesTable]
  split
  · split
    · next => simp
    · next => simp
  · split
    · next => simp
    · next => simp

/-- C8: `MutableNftablesTable` is idempotent per connection: resolving the
same (family, name) twice performs at most one external listing call and at
most one external table-creation call in total, the second resolution makes
no external call and leaves the metadata cache unchanged, and both return
the same cached handle. -/
theorem MutableNftablesTable_idempotent_spec (eng : Engine) (tables : TablesMap)
    (family : TableFamily) (tableName : String) :
    (MutableNftablesTable eng
        (MutableNftablesTable eng tables family tableName).2.1 family tableName).2.2 = [] ∧
    (MutableNftablesTable eng
        (MutableNftablesTable eng tables family tableName).2.1 family tableName).1 =
      (MutableNftablesTable eng tables family tableName).1 ∧
    (MutableNftablesTable eng
        (MutableNftablesTable eng tables family tableName).2.1 family tableName).2.1 =
      (MutableNftablesTable eng tables family tableName).2.1 ∧
    (((MutableNftablesTable eng tables family tableName).2.2 ++
        (MutableNftablesTable eng
          (MutableNftablesTable eng tables family tableName).2.1 family tableName).2.2).filter
      isListingCall).length ≤ 1 ∧
    (((MutableNftablesTable eng tables family tableName).2.2 ++
        (MutableNftablesTable eng
          (MutableNftablesTable eng tables family tableName).2.1 family tableName).2.2).filter
      isAddTableCall).length ≤ 1 := by
  obtain ⟨s, hset, hfind, hlen⟩ := MutableNftablesTable_caches eng tables family tableName
  have hhit : MutableNftablesTable eng
      (MutableNftablesTable eng tables family tableName).2.1 family tableName =
      ((MutableNftablesTable eng tables family tableName).1,
       (MutableNftablesTable eng tables family tableName).2.1, []) := by
    apply MutableNftablesTable_hit eng _ family tableName s _ _ hlen hfind
    rw [hset]
    exact assocFind_assocSet tables family s
  refine ⟨by rw [hhit], by rw [hhit], by rw [hhit], ?_, ?_⟩
  · rw [hhit]
    rcases MutableNftablesTable_calls_cases eng tables family tableName with
      h | h | h | h <;> simp [h, isListingCall, isAddTableCall]
  · rw [hhit]
    rcases MutableNftablesTable_calls_cases eng tables family tableName with
      h | h | h | h <;> simp [h, isListingCall, isAddTableCall]

/-! ## Claim theorems: entry point -/

/-- C10: a response without A/AAAA answer records is written to the client
and `ServeDNS` returns success without running any dispatch pass: the pool
(and hence every recency/metadata cache inside it) is untouched and the only
external effect is the response write. -/
theorem ServeDNS_no_valid_record_spec (asyncFlag : Bool) (cfg : WorkerConfig)
    (outcome : TableFamily → Nat → ApplierOutcome) (rules : List (TableFamily × Nat))
    (connect : Except String Nat) (nextRcode : Nat) (answers : List DnsRR)
    (pool : List NftablesCache) (h : hasValidRecord answers = false) :
    ServeDNS asyncFlag cfg outcome rules connect none nextRcode none (some answers) pool =
      (RcodeSuccess, none, [SEvent.writeMsg], pool) := by
  simp [ServeDNS, h]

/-- Witness for C10: a response whose only answer is a non-address record. -/
theorem ServeDNS_no_valid_record_spec_witness :
    hasValidRecord [{ rrtype := RrType.Other, ip := "", name := "y." }] = false ∧
    ServeDNS false
        { maxRetry := 10, now := 100, connTtl := 50, lruTtl := 50, maxCount := 3,
          flushOk := true }
        outcomeOk rulesFix (Except.ok 9) none 0 none
        (some [{ rrtype := RrType.Other, ip := "", name := "y." }]) [] =
      (RcodeSuccess, none, [SEvent.writeMsg], []) :=
  ⟨rfl,
   ServeDNS_no_valid_record_spec false
     { maxRetry := 10, now := 100, connTtl := 50, lruTtl := 50, maxCount := 3,
       flushOk := true }
     outcomeOk rulesFix (Except.ok 9) 0 _ [] rfl⟩

end CorednsNftables
